import Mathlib

/-! Shallow embedding of the snap-sizer image-processing core
(`resizeImageToSize`, `cropImage`, `convertUnits`, `formatFileSize`,
`parseFileSize` from the image-utils module, plus the target-size guard of
the `useImageProcessor` hook).

Modelling conventions:
* JavaScript numbers are idealized as exact rationals (`ℚ`); byte counts
  (`file.size`, `blob.size`) are `ℕ`; pixel dimensions after the source's
  `Math.floor` / `Math.ceil` are `ℤ`.
* The canvas encoder (`canvas.toBlob` after `drawImage`) is an external
  collaborator owned by the host.  It is modelled as a total parameter
  `enc : ℤ → ℤ → ℚ → ℕ` returning the encoded byte size for a given
  (width, height, quality).  The only reject paths in the source are
  codec-level (null drawing context, null blob, image-load error); with a
  total encoder none of them fire, and no code path in the source raises a
  validation error of its own.
* `Math.sqrt` is a floating-point primitive; it is modelled as a function
  parameter `sqrtFn : ℚ → ℚ`, with the properties of a real square root
  stated as explicit hypotheses where a theorem needs them, and instantiated
  at rational points where it is exact (e.g. `sqrt 4 = 2`) in witnesses.
* `Math.log(bytes) / Math.log(1024)` floored is idealized as
  `Nat.log 1024 bytes`, and `toFixed` followed by `parseFloat` as exact
  rational rounding to `dm` decimal places.
-/

/-- One encode attempt of the engine: the parameters handed to the canvas and
the byte size the encoder produced for them (the data of the resolved File). -/
structure Attempt where
  width : ℤ
  height : ℤ
  quality : ℚ
  size : ℕ
deriving DecidableEq

/-- The mutable closure variables of the shrink-regime loop in
`resizeImageToSize`: current `width`/`height`/`quality`, the last measured
`currentSize`, and `bestMatchFile` (`none` models the initial
`bestMatchDiff = Infinity`, under which the first comparison always wins). -/
structure ShrinkState where
  width : ℤ
  height : ℤ
  quality : ℚ
  currentSize : ℕ
  bestMatch : Option Attempt
deriving DecidableEq

/-- The source's convergence test: `currentSize <= targetSize + tolerance &&
currentSize >= targetSize - tolerance` with `tolerance = targetSize * 0.05`. -/
def withinTolerance (targetSize : ℚ) (size : ℕ) : Prop :=
  (size : ℚ) ≤ targetSize + targetSize * (0.05 : ℚ) ∧
    targetSize - targetSize * (0.05 : ℚ) ≤ (size : ℚ)

instance (targetSize : ℚ) (size : ℕ) : Decidable (withinTolerance targetSize size) := by
  unfold withinTolerance
  exact instDecidableAnd

/-- `Math.abs(currentSize - targetSize)`, the distance used for best-match
tracking. -/
def diffTo (targetSize : ℚ) (a : Attempt) : ℚ :=
  |(a.size : ℚ) - targetSize|

/-- The source's best-match update: when `diff < bestMatchDiff`, record the
new attempt as `bestMatchFile` (strict improvement, first-found wins). -/
def updateBest (targetSize : ℚ) (best : Option Attempt) (a : Attempt) : Option Attempt :=
  match best with
  | none => some a
  | some b => if diffTo targetSize a < diffTo targetSize b then some a else some b

/-- One iteration's parameter update in the shrink loop (the body between
`currentIteration++` and the encode): overshoot-far shrinks dimensions by
`max(ratio, 0.7)`, overshoot-close retunes quality with floor `0.5`, and the
undershoot branch applies `width /= min(ratio, 1.2)` (floored) and
`quality = min(quality * 1.05, 1.0)`. -/
def nextParams (sqrtFn : ℚ → ℚ) (targetSize : ℚ) (s : ShrinkState) : ℤ × ℤ × ℚ :=
  let ratioQ := sqrtFn (targetSize / (s.currentSize : ℚ))
  let sizeDifference := (s.currentSize : ℚ) - targetSize
  if sizeDifference > 0 then
    if sizeDifference > targetSize * (0.5 : ℚ) then
      (⌊(s.width : ℚ) * max ratioQ (0.7 : ℚ)⌋, ⌊(s.height : ℚ) * max ratioQ (0.7 : ℚ)⌋,
        s.quality)
    else
      (s.width, s.height,
        max (s.quality * ((0.95 : ℚ) + (ratioQ - 1) * (0.1 : ℚ))) (0.5 : ℚ))
  else
    (⌊(s.width : ℚ) / min ratioQ (1.2 : ℚ)⌋, ⌊(s.height : ℚ) / min ratioQ (1.2 : ℚ)⌋,
      min (s.quality * (1.05 : ℚ)) 1)

/-- One iteration's encode attempt: set the canvas to the updated parameters,
draw, and convert to a blob whose size the encoder reports. -/
def stepAttempt (enc : ℤ → ℤ → ℚ → ℕ) (sqrtFn : ℚ → ℚ) (targetSize : ℚ)
    (s : ShrinkState) : Attempt :=
  ⟨(nextParams sqrtFn targetSize s).1, (nextParams sqrtFn targetSize s).2.1,
    (nextParams sqrtFn targetSize s).2.2,
    enc (nextParams sqrtFn targetSize s).1 (nextParams sqrtFn targetSize s).2.1
      (nextParams sqrtFn targetSize s).2.2⟩

/-- The loop state entering the next iteration: the updated parameters, the
newly measured `currentSize`, and the best-match update. -/
def stepState (enc : ℤ → ℤ → ℚ → ℕ) (sqrtFn : ℚ → ℚ) (targetSize : ℚ)
    (s : ShrinkState) : ShrinkState :=
  ⟨(nextParams sqrtFn targetSize s).1, (nextParams sqrtFn targetSize s).2.1,
    (nextParams sqrtFn targetSize s).2.2, (stepAttempt enc sqrtFn targetSize s).size,
    updateBest targetSize s.bestMatch (stepAttempt enc sqrtFn targetSize s)⟩

/-- The recursive `compressStep` closure of `resizeImageToSize`, with the
remaining iteration budget `fuel = maxIterations - currentIteration` made
explicit.  Exhaustion resolves `bestMatchFile` when present, otherwise encodes
the current parameters once more (the source's final `canvas.toBlob`).  Each
iteration updates the parameters, encodes, tracks the best match, and either
resolves (within the 5% tolerance band) or recurses.  The second component is
the trace of every encode attempt performed, in order. -/
def compressStep (enc : ℤ → ℤ → ℚ → ℕ) (sqrtFn : ℚ → ℚ) (targetSize : ℚ) :
    ℕ → ShrinkState → Attempt × List Attempt
  | 0, s =>
    match s.bestMatch with
    | some b => (b, [])
    | none =>
      (⟨s.width, s.height, s.quality, enc s.width s.height s.quality⟩,
        [⟨s.width, s.height, s.quality, enc s.width s.height s.quality⟩])
  | fuel + 1, s =>
    if withinTolerance targetSize (stepAttempt enc sqrtFn targetSize s).size then
      (stepAttempt enc sqrtFn targetSize s, [stepAttempt enc sqrtFn targetSize s])
    else
      ((compressStep enc sqrtFn targetSize fuel (stepState enc sqrtFn targetSize s)).1,
        stepAttempt enc sqrtFn targetSize s ::
          (compressStep enc sqrtFn targetSize fuel (stepState enc sqrtFn targetSize s)).2)

/-- An input file as the engine sees it: its byte size and the decoded
image's dimensions (`img.width`, `img.height`). -/
structure ImgFile where
  size : ℕ
  width : ℤ
  height : ℤ
deriving DecidableEq

/-- `resizeImageToSize(file, targetSize, maxIterations)`.  When
`file.size <= targetSize` the growth branch runs: one single encode at
`ceil(width * scaleFactor) × ceil(height * scaleFactor)` and quality `1.0`,
where `scaleFactor = sqrt(targetSize / file.size)`.  Otherwise the shrink
loop starts from the native dimensions with quality `0.9`,
`currentSize = file.size` and no best match yet.  Returns the resolved
attempt together with the ordered trace of all encode attempts. -/
def resizeImageToSize (enc : ℤ → ℤ → ℚ → ℕ) (sqrtFn : ℚ → ℚ)
    (file : ImgFile) (targetSize : ℚ) (maxIterations : ℕ) : Attempt × List Attempt :=
  if (file.size : ℚ) ≤ targetSize then
    let scaleFactor := sqrtFn (targetSize / (file.size : ℚ))
    let w := ⌈(file.width : ℚ) * scaleFactor⌉
    let hgt := ⌈(file.height : ℚ) * scaleFactor⌉
    let a : Attempt := ⟨w, hgt, 1, enc w hgt 1⟩
    (a, [a])
  else
    compressStep enc sqrtFn targetSize maxIterations
      ⟨file.width, file.height, (0.9 : ℚ), file.size, none⟩

/-- A width/height pair (used both for the decoded image's natural size and
for the displayed canvas size). -/
structure Dimensions where
  width : ℚ
  height : ℚ
deriving DecidableEq

/-- The crop rectangle in display-space pixels. -/
structure CropArea where
  x : ℚ
  y : ℚ
  width : ℚ
  height : ℚ
deriving DecidableEq

/-- The single encode `cropImage` performs: the output canvas size, the
9-argument `drawImage` call (source rectangle, destination rectangle) and the
`toBlob` quality. -/
structure CropEncode where
  canvasWidth : ℚ
  canvasHeight : ℚ
  srcX : ℚ
  srcY : ℚ
  srcW : ℚ
  srcH : ℚ
  dstX : ℚ
  dstY : ℚ
  dstW : ℚ
  dstH : ℚ
  quality : ℚ
deriving DecidableEq

/-- `cropImage(file, cropArea, canvasDimensions)`: sizes the output canvas to
the display-space crop area, computes `scaleX = naturalWidth / canvasWidth`
and `scaleY = naturalHeight / canvasHeight`, scales the crop area by them to
obtain the source sampling rectangle, draws it onto the whole canvas and
encodes once at quality `1.0`.  The source performs no validation of the crop
area whatsoever; its only reject paths are codec-level. -/
def cropImage (img : Dimensions) (cropArea : CropArea) (canvasDimensions : Dimensions) :
    CropEncode :=
  let scaleX := img.width / canvasDimensions.width
  let scaleY := img.height / canvasDimensions.height
  ⟨cropArea.width, cropArea.height,
    cropArea.x * scaleX, cropArea.y * scaleY,
    cropArea.width * scaleX, cropArea.height * scaleY,
    0, 0, cropArea.width, cropArea.height, 1⟩

namespace convertUnits

/-- `pixelsToInches: (pixels, dpi = 96) => pixels / dpi`. -/
def pixelsToInches (pixels : ℚ) (dpi : ℚ) : ℚ := pixels / dpi

/-- `inchesToPixels: (inches, dpi = 96) => inches * dpi`. -/
def inchesToPixels (inches : ℚ) (dpi : ℚ) : ℚ := inches * dpi

/-- `pixelsToCm: (pixels, dpi = 96) => (pixels / dpi) * 2.54`. -/
def pixelsToCm (pixels : ℚ) (dpi : ℚ) : ℚ := (pixels / dpi) * (2.54 : ℚ)

/-- `cmToPixels: (cm, dpi = 96) => (cm / 2.54) * dpi`. -/
def cmToPixels (cm : ℚ) (dpi : ℚ) : ℚ := (cm / (2.54 : ℚ)) * dpi

end convertUnits

/-- `parseFloat(x.toFixed(dm))` idealized: round `x` to `dm` decimal places
(ties away from zero for nonnegative `x`, as `toFixed` does) and read the
decimal string back as a number. -/
def toFixedRound (x : ℚ) (dm : ℕ) : ℚ :=
  (⌊x * 10 ^ dm + 1 / 2⌋ : ℚ) / 10 ^ dm

/-- The value/unit pair `formatFileSize` renders (the returned string is
`value ++ " " ++ unit`). -/
structure Formatted where
  value : ℚ
  unit : String
deriving DecidableEq

/-- `formatFileSize(bytes, decimals = 2)`: `0` maps to the literal
`"0 Bytes"`; otherwise `i = floor(log(bytes) / log(1024))` (idealized as
`Nat.log 1024 bytes`) selects `sizes[i]` from `['Bytes','KB','MB','GB']`
(out-of-range indexing yields the JavaScript string `"undefined"`), and the
value shown is `parseFloat((bytes / 1024^i).toFixed(dm))`. -/
def formatFileSize (bytes : ℕ) (decimals : ℤ) : Formatted :=
  if bytes = 0 then ⟨0, "Bytes"⟩
  else
    let k : ℕ := 1024
    let dm : ℕ := if decimals < 0 then 0 else decimals.toNat
    let sizes : List String := ["Bytes", "KB", "MB", "GB"]
    let i : ℕ := Nat.log k bytes
    ⟨toFixedRound ((bytes : ℚ) / (k : ℚ) ^ i) dm, (sizes[i]?).getD "undefined"⟩

/-- Numeric value of a list of decimal digit characters. -/
def digitsVal (cs : List Char) : ℕ :=
  cs.foldl (fun acc c => 10 * acc + (c.toNat - 48)) 0

/-- The integer data of a parsed decimal literal: sign, integer-part value,
fraction-part value and digit count, and exponent. -/
structure FloatParts where
  sign : ℤ
  intVal : ℕ
  fracVal : ℕ
  fracLen : ℕ
  exp : ℤ
deriving DecidableEq

/-- The character-level work of JavaScript `parseFloat` on finite decimal
literals: skip leading whitespace, optional sign, integer digits, optional
fraction, optional exponent; `none` models `NaN` (no numeric prefix at all). -/
def parseFloatParts (s : String) : Option FloatParts :=
  let cs0 := s.toList.dropWhile (fun c => c.isWhitespace)
  let signed : ℤ × List Char :=
    match cs0 with
    | '-' :: rest => (-1, rest)
    | '+' :: rest => (1, rest)
    | _ => (1, cs0)
  let cs := signed.2
  let intPart := cs.takeWhile (fun c => c.isDigit)
  let cs1 := cs.dropWhile (fun c => c.isDigit)
  let fraced : List Char × List Char :=
    match cs1 with
    | '.' :: rest => (rest.takeWhile (fun c => c.isDigit), rest.dropWhile (fun c => c.isDigit))
    | _ => ([], cs1)
  let fracPart := fraced.1
  let cs2 := fraced.2
  if intPart = [] ∧ fracPart = [] then none
  else
    let expVal : Option ℤ :=
      match cs2 with
      | c :: rest =>
        if c = 'e' ∨ c = 'E' then
          let esigned : ℤ × List Char :=
            match rest with
            | '-' :: r => (-1, r)
            | '+' :: r => (1, r)
            | _ => (1, rest)
          let ed := esigned.2.takeWhile (fun c => c.isDigit)
          if ed = [] then none else some (esigned.1 * digitsVal ed)
        else none
      | [] => none
    some ⟨signed.1, digitsVal intPart, digitsVal fracPart, fracPart.length, expVal.getD 0⟩

/-- JavaScript `parseFloat` on finite decimal literals: the numeric value of
the parsed parts, `sign * (int + frac / 10^fracLen) * 10^exp`. -/
def parseFloatQ (s : String) : Option ℚ :=
  (parseFloatParts s).map fun p =>
    (p.sign : ℚ) * ((p.intVal : ℚ) + (p.fracVal : ℚ) / 10 ^ p.fracLen) * (10 : ℚ) ^ p.exp

/-- Whether `needle` is a prefix of `hay` (Boolean). -/
def listStartsWith : List Char → List Char → Bool
  | [], _ => true
  | _ :: _, [] => false
  | n :: ns, h :: hs => n == h && listStartsWith ns hs

/-- Whether `needle` occurs contiguously inside `hay` (Boolean substring
containment, the semantics of `String.prototype.includes`). -/
def listContains (needle : List Char) : List Char → Bool
  | [] => needle.isEmpty
  | h :: hs => listStartsWith needle (h :: hs) || listContains needle hs

/-- `sizeStr.toLowerCase().includes(token)` for an ASCII token. -/
def containsToken (s : String) (token : List Char) : Bool :=
  listContains token (s.toList.map Char.toLower)

/-- `parseFileSize(sizeStr)`: leading numeric value via `parseFloat` (`NaN`
degrades to `0`), then a case-insensitive unit cascade kb / mb / gb choosing
the multiplier, defaulting to raw bytes. -/
def parseFileSize (sizeStr : String) : ℚ :=
  match parseFloatQ sizeStr with
  | none => 0
  | some value =>
    if containsToken sizeStr ['k', 'b'] then value * 1024
    else if containsToken sizeStr ['m', 'b'] then value * 1024 * 1024
    else if containsToken sizeStr ['g', 'b'] then value * 1024 * 1024 * 1024
    else value

/-- The `resizeImage` callback of the `useImageProcessor` hook: it converts
the size string to bytes with `parseFileSize`, returns `null` (with a toast)
when the result is `<= 0` without ever invoking the engine, and otherwise
calls `resizeImageToSize` with the default 20 iterations. -/
def resizeImage (enc : ℤ → ℤ → ℚ → ℕ) (sqrtFn : ℚ → ℚ)
    (originalImage : ImgFile) (targetSizeStr : String) : Option Attempt :=
  let targetSizeBytes := parseFileSize targetSizeStr
  if targetSizeBytes ≤ 0 then none
  else some (resizeImageToSize enc sqrtFn originalImage targetSizeBytes 20).1

/-! Supporting lemmas. -/

theorem updateBest_isSome (t : ℚ) (b : Option Attempt) (a : Attempt) :
    (updateBest t b a).isSome := by
  cases b with
  | none => rfl
  | some b0 =>
    simp only [updateBest]
    split <;> rfl

/-! Claim theorems. -/

/-- C10: the pixel/inch and pixel/cm converters are exact inverse pairs in
rational arithmetic for any dpi > 0. -/
theorem convertUnits_roundtrip (x dpi : ℚ) (h : 0 < dpi) :
    convertUnits.pixelsToInches (convertUnits.inchesToPixels x dpi) dpi = x ∧
    convertUnits.pixelsToCm (convertUnits.cmToPixels x dpi) dpi = x := by
  have hne : dpi ≠ 0 := ne_of_gt h
  unfold convertUnits.pixelsToInches convertUnits.inchesToPixels
    convertUnits.pixelsToCm convertUnits.cmToPixels
  constructor
  · field_simp
  · field_simp
    ring

/-- Witness for C10 at x = 7, dpi = 96. -/
theorem convertUnits_roundtrip_witness :
    (0 : ℚ) < 96 ∧
    (convertUnits.pixelsToInches (convertUnits.inchesToPixels 7 96) 96 = 7 ∧
      convertUnits.pixelsToCm (convertUnits.cmToPixels 7 96) 96 = 7) :=
  ⟨by norm_num, convertUnits_roundtrip 7 96 (by norm_num)⟩

/-- C6: `cropImage` computes the display-to-native scales, samples the source
rectangle obtained by scaling the region's x, y, width, height, outputs a
canvas of exactly the display-space region size, and performs its single
encode at quality 1.0; instantiated at the spec's example (native 400x400,
display 200x200, region 100x100 at the origin, sampling 200x200). -/
theorem cropImage_scaling_spec :
    (∀ (img : Dimensions) (cropArea : CropArea) (canvasDimensions : Dimensions),
      cropImage img cropArea canvasDimensions =
        ⟨cropArea.width, cropArea.height,
          cropArea.x * (img.width / canvasDimensions.width),
          cropArea.y * (img.height / canvasDimensions.height),
          cropArea.width * (img.width / canvasDimensions.width),
          cropArea.height * (img.height / canvasDimensions.height),
          0, 0, cropArea.width, cropArea.height, 1⟩) ∧
    cropImage ⟨400, 400⟩ ⟨0, 0, 100, 100⟩ ⟨200, 200⟩ =
      ⟨100, 100, 0, 0, 200, 200, 0, 0, 100, 100, 1⟩ := by
  constructor
  · intro img cropArea canvasDimensions
    rfl
  · norm_num [cropImage]

/-- C2 counterexample: a region with x + width exceeding the display width is
not rejected; `cropImage` still produces its single encoded result (here even
sampling outside the native raster: srcX + srcW = 500 > 400). -/
theorem cropImage_overflow_region_encodes :
    (200 : ℚ) < 150 + 100 ∧
    cropImage ⟨400, 400⟩ ⟨150, 0, 100, 100⟩ ⟨200, 200⟩ =
      ⟨100, 100, 300, 0, 200, 200, 0, 0, 100, 100, 1⟩ := by
  constructor
  · norm_num
  · norm_num [cropImage]

/-- C2 amended: `cropImage` performs no region validation at all: even when
the CropRegion invariant is violated (x + width > display width), it returns
the same single-encode result instead of failing; the §3 invariant is only
maintained upstream by the cropper UI's drag clamping. -/
theorem cropImage_no_region_validation (img : Dimensions) (cropArea : CropArea)
    (canvasDimensions : Dimensions)
    (_h : canvasDimensions.width < cropArea.x + cropArea.width) :
    cropImage img cropArea canvasDimensions =
      ⟨cropArea.width, cropArea.height,
        cropArea.x * (img.width / canvasDimensions.width),
        cropArea.y * (img.height / canvasDimensions.height),
        cropArea.width * (img.width / canvasDimensions.width),
        cropArea.height * (img.height / canvasDimensions.height),
        0, 0, cropArea.width, cropArea.height, 1⟩ :=
  rfl

/-- Witness for C2's amended theorem at a concrete out-of-bounds region. -/
theorem cropImage_no_region_validation_witness :
    (200 : ℚ) < 150 + 100 ∧
    cropImage ⟨400, 400⟩ ⟨150, 0, 100, 100⟩ ⟨200, 200⟩ =
      ⟨(100 : ℚ), 100, 150 * ((400 : ℚ) / 200), 0 * ((400 : ℚ) / 200),
        100 * ((400 : ℚ) / 200), 100 * ((400 : ℚ) / 200), 0, 0, 100, 100, 1⟩ :=
  ⟨by norm_num, cropImage_no_region_validation ⟨400, 400⟩ ⟨150, 0, 100, 100⟩ ⟨200, 200⟩
    (by norm_num)⟩

/-- C5: in the growth regime (file.size ≤ targetBytes) the operation is
single-shot: scale factor sqrt(targetBytes / S0), dimensions ceil-scaled,
quality forced to 1.0, exactly one encode (the trace has one element), its
result returned, no iteration loop. -/
theorem resizeImageToSize_growth_spec (enc : ℤ → ℤ → ℚ → ℕ) (sqrtFn : ℚ → ℚ)
    (file : ImgFile) (targetSize : ℚ) (h : (file.size : ℚ) ≤ targetSize) :
    resizeImageToSize enc sqrtFn file targetSize 20 =
      (⟨⌈(file.width : ℚ) * sqrtFn (targetSize / (file.size : ℚ))⌉,
        ⌈(file.height : ℚ) * sqrtFn (targetSize / (file.size : ℚ))⌉, 1,
        enc ⌈(file.width : ℚ) * sqrtFn (targetSize / (file.size : ℚ))⌉
          ⌈(file.height : ℚ) * sqrtFn (targetSize / (file.size : ℚ))⌉ 1⟩,
       [⟨⌈(file.width : ℚ) * sqrtFn (targetSize / (file.size : ℚ))⌉,
         ⌈(file.height : ℚ) * sqrtFn (targetSize / (file.size : ℚ))⌉, 1,
         enc ⌈(file.width : ℚ) * sqrtFn (targetSize / (file.size : ℚ))⌉
           ⌈(file.height : ℚ) * sqrtFn (targetSize / (file.size : ℚ))⌉ 1⟩]) := by
  unfold resizeImageToSize
  rw [if_pos h]

/-- Witness for C5 at the spec's example: S0 = 100000, target 400000,
sqrt(4) = 2, so a 30x20 image is encoded once at 60x40 and quality 1. -/
theorem resizeImageToSize_growth_spec_witness :
    (100000 : ℚ) ≤ 400000 ∧
    resizeImageToSize (fun _ _ _ => 400000) (fun x => if x = 4 then 2 else 0)
        ⟨100000, 30, 20⟩ 400000 20 =
      (⟨60, 40, 1, 400000⟩, [⟨60, 40, 1, 400000⟩]) := by
  refine ⟨by norm_num, ?_⟩
  rw [resizeImageToSize_growth_spec (fun _ _ _ => 400000) (fun x => if x = 4 then 2 else 0)
    ⟨100000, 30, 20⟩ 400000 (by norm_num)]
  norm_num [Int.ceil_eq_iff, Prod.ext_iff]

/-- C1 (code bug): in the undershoot branch the source divides the dimensions
by min(ratio, 1.2) ≥ 1 instead of growing them.  At the failing input
(width = height = 100, quality = 0.9, currentSize = 100, targetBytes = 400,
so ratio = sqrt(4) = 2) the iteration takes the undershoot branch
(sizeDifference = -300 ≤ 0) and produces width = floor(100 / 1.2) = 83 < 100:
the dimensions shrink while the claim (and the source's own comment) says
they grow; the quality update min(0.9 * 1.05, 1) = 0.945 matches the claim. -/
theorem undershoot_update_shrinks_at_ratio_two :
    ((100 : ℚ) - 400 ≤ 0) ∧
    (compressStep (fun _ _ _ => 100) (fun x => if x = 4 then 2 else 1) 400 1
        ⟨100, 100, 0.9, 100, none⟩).1 = ⟨83, 83, 189 / 200, 100⟩ ∧
    (83 : ℤ) < 100 ∧ min ((0.9 : ℚ) * 1.05) 1 = 189 / 200 := by
  refine ⟨by norm_num, ?_, by norm_num, ?_⟩
  · norm_num [compressStep, stepAttempt, stepState, nextParams, withinTolerance,
      updateBest, diffTo, max_def, min_def, Int.floor_eq_iff]
  · rw [min_eq_left (by norm_num)]
    norm_num

/-- C3 counterexample: called directly with targetBytes = 0 (≤ 0) on a
nonempty file, `resizeImageToSize` does not fail with InvalidTarget: it runs
the shrink loop (ratio = sqrt(0) = 0, so dimensions shrink by the 0.7 floor
each step) and, never reaching the zero-tolerance band, returns its best
recorded attempt — a result, not an error. -/
theorem resizeImageToSize_target_zero_returns_attempt :
    (resizeImageToSize (fun _ _ _ => 7) (fun _ => 0) ⟨10, 8, 8⟩ 0 20).1 =
      ⟨5, 5, 0.9, 7⟩ ∧
    (resizeImageToSize (fun _ _ _ => 7) (fun _ => 0) ⟨10, 8, 8⟩ 0 20).2.length = 20 := by
  constructor <;>
    norm_num [resizeImageToSize, compressStep, stepAttempt, stepState, nextParams,
      withinTolerance, updateBest, diffTo, max_def, min_def, Int.floor_eq_iff,
      abs_of_nonneg]

/-- C3 amended: the targetBytes ≤ 0 validation lives in the caller — the
hook's `resizeImage` returns null without invoking the engine when
`parseFileSize` yields a non-positive target, and only for a positive target
does it call `resizeImageToSize` (which itself performs no target check). -/
theorem target_validation_in_caller (enc : ℤ → ℤ → ℚ → ℕ) (sqrtFn : ℚ → ℚ)
    (img : ImgFile) (s : String) :
    (parseFileSize s ≤ 0 → resizeImage enc sqrtFn img s = none) ∧
    (0 < parseFileSize s →
      resizeImage enc sqrtFn img s =
        some (resizeImageToSize enc sqrtFn img (parseFileSize s) 20).1) := by
  constructor
  · intro h
    simp only [resizeImage]
    rw [if_pos h]
  · intro h
    simp only [resizeImage]
    rw [if_neg (not_le.mpr h)]

/-- Witness for C3's amended theorem: the hook rejects the string "0"
(parsed target 0) without calling the engine. -/
theorem target_validation_in_caller_witness :
    parseFileSize "0" ≤ 0 ∧
    resizeImage (fun _ _ _ => 7) (fun _ => 0) ⟨10, 8, 8⟩ "0" = none := by
  have hp : parseFloatParts "0" = some ⟨1, 0, 0, 0, 0⟩ := by decide
  have hk : containsToken "0" ['k', 'b'] = false := by decide
  have hm : containsToken "0" ['m', 'b'] = false := by decide
  have hg : containsToken "0" ['g', 'b'] = false := by decide
  have h0 : parseFileSize "0" = 0 := by
    simp [parseFileSize, parseFloatQ, hp, hk, hm, hg]
  exact ⟨le_of_eq h0,
    (target_validation_in_caller (fun _ _ _ => 7) (fun _ => 0) ⟨10, 8, 8⟩ "0").1
      (le_of_eq h0)⟩

/-- C9: `parseFileSize` returns 0 (not an error) when the numeric prefix
fails to parse, and otherwise multiplies the extracted leading value by 1024,
1024² or 1024³ according to the case-insensitive kb / mb / gb cascade,
defaulting to the raw value. -/
theorem parseFileSize_spec (s : String) :
    (parseFloatQ s = none → parseFileSize s = 0) ∧
    ∀ v : ℚ, parseFloatQ s = some v →
      parseFileSize s =
        if containsToken s ['k', 'b'] then v * 1024
        else if containsToken s ['m', 'b'] then v * 1024 * 1024
        else if containsToken s ['g', 'b'] then v * 1024 * 1024 * 1024
        else v := by
  constructor
  · intro h
    simp [parseFileSize, h]
  · intro v hv
    simp [parseFileSize, hv]

/-- Witness for C9: "1.5 KB" parses to 3/2 and yields 1536 bytes, and the
unparseable "abc" degrades to 0. -/
theorem parseFileSize_spec_witness :
    parseFloatQ "1.5 KB" = some (3 / 2) ∧ parseFileSize "1.5 KB" = 1536 ∧
    parseFloatQ "abc" = none ∧ parseFileSize "abc" = 0 := by
  have hp : parseFloatParts "1.5 KB" = some ⟨1, 1, 5, 1, 0⟩ := by decide
  have hv : parseFloatQ "1.5 KB" = some (3 / 2) := by
    rw [parseFloatQ, hp]
    norm_num
  have hnone : parseFloatParts "abc" = none := by decide
  have hvnone : parseFloatQ "abc" = none := by rw [parseFloatQ, hnone]; rfl
  have hkb : containsToken "1.5 KB" ['k', 'b'] = true := by decide
  refine ⟨hv, ?_, hvnone, (parseFileSize_spec "abc").1 hvnone⟩
  rw [(parseFileSize_spec "1.5 KB").2 (3 / 2) hv, if_pos hkb]
  norm_num

/-- C8 counterexample: at 2 TiB (2^41 bytes, log index 4) the unit lookup
runs off the end of ['Bytes','KB','MB','GB'] and the rendered unit is the
JavaScript string "undefined", which is not one of the four claimed units. -/
theorem formatFileSize_terabyte_undefined :
    formatFileSize (2 ^ 41) 2 = ⟨2, "undefined"⟩ ∧
    "undefined" ∉ (["Bytes", "KB", "MB", "GB"] : List String) := by
  have hlog : Nat.log 1024 (2 ^ 41) = 4 :=
    Nat.log_eq_of_pow_le_of_lt_pow (by norm_num) (by norm_num)
  constructor
  · have ht2 : (2 : ℤ).toNat = 2 := rfl
    simp only [formatFileSize, hlog]
    norm_num [toFixedRound, ht2, Formatted.mk.injEq, Int.floor_eq_iff]
  · decide

/-- C8 amended: for 0 ≤ bytes < 1024^4 the unit is drawn from exactly
Bytes/KB/MB/GB at the largest applicable power of 1024 (1024^i ≤ bytes <
1024^(i+1)), the value is bytes / 1024^i rounded to the configured decimals,
and 0 formats as the zero literal with the smallest unit; beyond 1024^4 the
source renders the out-of-range unit "undefined". -/
theorem formatFileSize_unit_spec (bytes : ℕ) (d : ℤ) (hb : bytes < 1024 ^ 4) :
    formatFileSize 0 d = ⟨0, "Bytes"⟩ ∧
    (formatFileSize bytes d).unit ∈ (["Bytes", "KB", "MB", "GB"] : List String) ∧
    (0 < bytes →
      1024 ^ Nat.log 1024 bytes ≤ bytes ∧ bytes < 1024 ^ (Nat.log 1024 bytes + 1) ∧
      (formatFileSize bytes d).value =
        toFixedRound ((bytes : ℚ) / (1024 : ℚ) ^ Nat.log 1024 bytes)
          (if d < 0 then 0 else d.toNat)) := by
  refine ⟨by simp [formatFileSize], ?_, ?_⟩
  · rcases Nat.eq_zero_or_pos bytes with rfl | hpos
    · simp [formatFileSize]
    · have hne : bytes ≠ 0 := Nat.pos_iff_ne_zero.mp hpos
      have hlt : Nat.log 1024 bytes < 4 := Nat.log_lt_of_lt_pow hne hb
      have hunit : (formatFileSize bytes d).unit =
          ((["Bytes", "KB", "MB", "GB"] : List String)[Nat.log 1024 bytes]?).getD
            "undefined" := by
        simp [formatFileSize, hne]
      rw [hunit]
      set i := Nat.log 1024 bytes with hi
      interval_cases i <;> simp
  · intro hpos
    have hne : bytes ≠ 0 := Nat.pos_iff_ne_zero.mp hpos
    refine ⟨Nat.pow_log_le_self 1024 hne, Nat.lt_pow_succ_log_self (by norm_num) bytes, ?_⟩
    simp [formatFileSize, hne]

/-- Witness for C8's amended theorem at 1536 bytes (log index 1, "1.5 KB"). -/
theorem formatFileSize_unit_spec_witness :
    (1536 : ℕ) < 1024 ^ 4 ∧
    (formatFileSize 0 2 = ⟨0, "Bytes"⟩ ∧
      (formatFileSize 1536 2).unit ∈ (["Bytes", "KB", "MB", "GB"] : List String) ∧
      (0 < 1536 →
        1024 ^ Nat.log 1024 1536 ≤ 1536 ∧ 1536 < 1024 ^ (Nat.log 1024 1536 + 1) ∧
        (formatFileSize 1536 2).value =
          toFixedRound ((1536 : ℚ) / (1024 : ℚ) ^ Nat.log 1024 1536)
            (if (2 : ℤ) < 0 then 0 else (2 : ℤ).toNat))) :=
  ⟨by norm_num, formatFileSize_unit_spec 1536 2 (by norm_num)⟩

theorem compressStep_length_aux (enc : ℤ → ℤ → ℚ → ℕ) (sqrtFn : ℚ → ℚ) (t : ℚ) :
    ∀ (fuel : ℕ) (s : ShrinkState), s.bestMatch.isSome →
      ((compressStep enc sqrtFn t fuel s).2).length ≤ fuel := by
  intro fuel
  induction fuel with
  | zero =>
    intro s hs
    obtain ⟨b, hb⟩ := Option.isSome_iff_exists.mp hs
    simp [compressStep, hb]
  | succ n ih =>
    intro s hs
    by_cases hw : withinTolerance t (stepAttempt enc sqrtFn t s).size
    · simp [compressStep, hw]
    · simp only [compressStep, if_neg hw, List.length_cons]
      exact Nat.succ_le_succ (ih (stepState enc sqrtFn t s) (updateBest_isSome t _ _))

theorem compressStep_length_le (enc : ℤ → ℤ → ℚ → ℕ) (sqrtFn : ℚ → ℚ) (t : ℚ)
    (fuel : ℕ) (s : ShrinkState) (hf : 1 ≤ fuel) :
    ((compressStep enc sqrtFn t fuel s).2).length ≤ fuel := by
  cases fuel with
  | zero => exact absurd hf (by omega)
  | succ n =>
    by_cases hw : withinTolerance t (stepAttempt enc sqrtFn t s).size
    · simp [compressStep, hw]
    · simp only [compressStep, if_neg hw, List.length_cons]
      exact Nat.succ_le_succ
        (compressStep_length_aux enc sqrtFn t n (stepState enc sqrtFn t s)
          (updateBest_isSome t _ _))

theorem compressStep_char (enc : ℤ → ℤ → ℚ → ℕ) (sqrtFn : ℚ → ℚ) (t : ℚ) :
    ∀ (fuel : ℕ) (s : ShrinkState), (s.bestMatch = none → 1 ≤ fuel) →
      (∃ pre a, (compressStep enc sqrtFn t fuel s).2 = pre ++ [a] ∧
          (∀ b ∈ pre, ¬ withinTolerance t b.size) ∧ withinTolerance t a.size ∧
          (compressStep enc sqrtFn t fuel s).1 = a) ∨
      ((∀ a ∈ (compressStep enc sqrtFn t fuel s).2, ¬ withinTolerance t a.size) ∧
        ((compressStep enc sqrtFn t fuel s).2).foldl (updateBest t) s.bestMatch =
          some (compressStep enc sqrtFn t fuel s).1) := by
  intro fuel
  induction fuel with
  | zero =>
    intro s hnone
    cases hb : s.bestMatch with
    | none => exact absurd (hnone hb) (by omega)
    | some b =>
      right
      simp [compressStep, hb]
  | succ n ih =>
    intro s _
    by_cases hw : withinTolerance t (stepAttempt enc sqrtFn t s).size
    · left
      refine ⟨[], stepAttempt enc sqrtFn t s, ?_, by simp, hw, ?_⟩
      · simp [compressStep, hw]
      · simp [compressStep, hw]
    · have hsome : (stepState enc sqrtFn t s).bestMatch.isSome :=
        updateBest_isSome t s.bestMatch (stepAttempt enc sqrtFn t s)
      have h2 : (compressStep enc sqrtFn t (n + 1) s).2 =
          stepAttempt enc sqrtFn t s ::
            (compressStep enc sqrtFn t n (stepState enc sqrtFn t s)).2 := by
        simp [compressStep, hw]
      have h1 : (compressStep enc sqrtFn t (n + 1) s).1 =
          (compressStep enc sqrtFn t n (stepState enc sqrtFn t s)).1 := by
        simp [compressStep, hw]
      rcases ih (stepState enc sqrtFn t s) (fun hn => by simp [hn] at hsome) with
        ⟨pre, a, hsplit, hpre, hwin, hres⟩ | ⟨hall, hfold⟩
      · left
        refine ⟨stepAttempt enc sqrtFn t s :: pre, a, ?_, ?_, hwin, ?_⟩
        · rw [h2, hsplit, List.cons_append]
        · intro b hb
          rcases List.mem_cons.mp hb with rfl | hb
          · exact hw
          · exact hpre b hb
        · rw [h1, hres]
      · right
        constructor
        · intro a ha
          rw [h2] at ha
          rcases List.mem_cons.mp ha with rfl | ha
          · exact hw
          · exact hall a ha
        · rw [h2, h1, List.foldl_cons]
          exact hfold

theorem updateBest_spec (t : ℚ) (b : Option Attempt) (a c : Attempt)
    (h : updateBest t b a = some c) :
    (c = a ∨ b = some c) ∧ diffTo t c ≤ diffTo t a ∧
      ∀ b0, b = some b0 → diffTo t c ≤ diffTo t b0 := by
  cases b with
  | none =>
    simp only [updateBest, Option.some.injEq] at h
    subst h
    exact ⟨Or.inl rfl, le_refl _, fun b0 hb0 => by cases hb0⟩
  | some b0 =>
    simp only [updateBest] at h
    split at h
    · rename_i hlt
      obtain rfl : a = c := by injection h
      exact ⟨Or.inl rfl, le_refl _,
        fun b1 hb1 => by injection hb1 with hh; subst hh; exact le_of_lt hlt⟩
    · rename_i hge
      obtain rfl : b0 = c := by injection h
      exact ⟨Or.inr rfl, le_of_not_lt hge,
        fun b1 hb1 => by injection hb1 with hh; subst hh; exact le_refl _⟩

theorem foldl_updateBest_spec (t : ℚ) :
    ∀ (l : List Attempt) (b : Option Attempt) (r : Attempt),
      l.foldl (updateBest t) b = some r →
      (b = some r ∨ r ∈ l) ∧ (∀ a ∈ l, diffTo t r ≤ diffTo t a) ∧
        ∀ b0, b = some b0 → diffTo t r ≤ diffTo t b0 := by
  intro l
  induction l with
  | nil =>
    intro b r h
    simp only [List.foldl_nil] at h
    refine ⟨Or.inl h, by simp, fun b0 hb0 => ?_⟩
    rw [hb0] at h
    injection h with hh
    rw [hh]
  | cons a l ih =>
    intro b r h
    rw [List.foldl_cons] at h
    obtain ⟨hmem, hmin, hinit⟩ := ih (updateBest t b a) r h
    obtain ⟨c, hc⟩ := Option.isSome_iff_exists.mp (updateBest_isSome t b a)
    obtain ⟨hca, hcle, hcb⟩ := updateBest_spec t b a c hc
    have hrc : diffTo t r ≤ diffTo t c := hinit c hc
    refine ⟨?_, ?_, ?_⟩
    · rcases hmem with hbr | hrl
      · rw [hc] at hbr
        injection hbr with hh
        subst hh
        rcases hca with rfl | hbc
        · exact Or.inr (List.mem_cons_self _ _)
        · exact Or.inl hbc
      · exact Or.inr (List.mem_cons_of_mem _ hrl)
    · intro x hx
      rcases List.mem_cons.mp hx with rfl | hxl
      · exact le_trans hrc hcle
      · exact hmin x hxl
    · intro b0 hb0
      exact le_trans hrc (hcb b0 hb0)

/-- C4: in the shrink regime (S0 > targetBytes) the default call runs at most
20 iterations and always resolves to a result: either the trace ends at its
first attempt inside the ±5% tolerance band, which is returned immediately,
or no attempt converged and the returned result is an element of the trace
minimizing the absolute distance to the target (the recorded best match,
which exists because every iteration records one). -/
theorem resizeImageToSize_shrink_spec (enc : ℤ → ℤ → ℚ → ℕ) (sqrtFn : ℚ → ℚ)
    (file : ImgFile) (targetSize : ℚ) (h : targetSize < (file.size : ℚ)) :
    ((resizeImageToSize enc sqrtFn file targetSize 20).2).length ≤ 20 ∧
    ((∃ pre a, (resizeImageToSize enc sqrtFn file targetSize 20).2 = pre ++ [a] ∧
        (∀ b ∈ pre, ¬ withinTolerance targetSize b.size) ∧
        withinTolerance targetSize a.size ∧
        (resizeImageToSize enc sqrtFn file targetSize 20).1 = a) ∨
      ((∀ a ∈ (resizeImageToSize enc sqrtFn file targetSize 20).2,
          ¬ withinTolerance targetSize a.size) ∧
        (resizeImageToSize enc sqrtFn file targetSize 20).1 ∈
          (resizeImageToSize enc sqrtFn file targetSize 20).2 ∧
        ∀ a ∈ (resizeImageToSize enc sqrtFn file targetSize 20).2,
          diffTo targetSize (resizeImageToSize enc sqrtFn file targetSize 20).1 ≤
            diffTo targetSize a)) := by
  have hrun : resizeImageToSize enc sqrtFn file targetSize 20 =
      compressStep enc sqrtFn targetSize 20
        ⟨file.width, file.height, (0.9 : ℚ), file.size, none⟩ := by
    rw [resizeImageToSize, if_neg (not_le.mpr h)]
  rw [hrun]
  constructor
  · exact compressStep_length_le enc sqrtFn targetSize 20 _ (by omega)
  · rcases compressStep_char enc sqrtFn targetSize 20
      ⟨file.width, file.height, (0.9 : ℚ), file.size, none⟩ (fun _ => by omega) with
      h1 | ⟨hall, hfold⟩
    · exact Or.inl h1
    · right
      obtain ⟨hmem, hmin, _⟩ := foldl_updateBest_spec targetSize _ _ _ hfold
      rcases hmem with hbad | hm
      · cases hbad
      · exact ⟨hall, hm, hmin⟩

/-- Witness for C4: a 2,000,000-byte file targeted at 500,000 bytes with an
encoder that lands on 500,000 immediately (first attempt within tolerance). -/
theorem resizeImageToSize_shrink_spec_witness :
    (500000 : ℚ) < 2000000 ∧
    (((resizeImageToSize (fun _ _ _ => 500000) (fun _ => 0) ⟨2000000, 40, 30⟩
          500000 20).2).length ≤ 20 ∧
      ((∃ pre a, (resizeImageToSize (fun _ _ _ => 500000) (fun _ => 0) ⟨2000000, 40, 30⟩
            500000 20).2 = pre ++ [a] ∧
          (∀ b ∈ pre, ¬ withinTolerance 500000 b.size) ∧
          withinTolerance 500000 a.size ∧
          (resizeImageToSize (fun _ _ _ => 500000) (fun _ => 0) ⟨2000000, 40, 30⟩
              500000 20).1 = a) ∨
        ((∀ a ∈ (resizeImageToSize (fun _ _ _ => 500000) (fun _ => 0) ⟨2000000, 40, 30⟩
              500000 20).2, ¬ withinTolerance 500000 a.size) ∧
          (resizeImageToSize (fun _ _ _ => 500000) (fun _ => 0) ⟨2000000, 40, 30⟩
              500000 20).1 ∈
            (resizeImageToSize (fun _ _ _ => 500000) (fun _ => 0) ⟨2000000, 40, 30⟩
              500000 20).2 ∧
          ∀ a ∈ (resizeImageToSize (fun _ _ _ => 500000) (fun _ => 0) ⟨2000000, 40, 30⟩
              500000 20).2,
            diffTo 500000 (resizeImageToSize (fun _ _ _ => 500000) (fun _ => 0)
                ⟨2000000, 40, 30⟩ 500000 20).1 ≤ diffTo 500000 a))) :=
  ⟨by norm_num,
    resizeImageToSize_shrink_spec (fun _ _ _ => 500000) (fun _ => 0) ⟨2000000, 40, 30⟩
      500000 (by norm_num)⟩

theorem nextParams_quality_bounds (sqrtFn : ℚ → ℚ) (t : ℚ) (s : ShrinkState)
    (hsq : ∀ x : ℚ, 0 ≤ x → x ≤ 1 → sqrtFn x ≤ 1) (ht : 0 < t)
    (h1 : 1 / 2 ≤ s.quality) (h2 : s.quality ≤ 1) :
    1 / 2 ≤ (nextParams sqrtFn t s).2.2 ∧ (nextParams sqrtFn t s).2.2 ≤ 1 := by
  unfold nextParams
  by_cases hd : (s.currentSize : ℚ) - t > 0
  · by_cases hfar : (s.currentSize : ℚ) - t > t * (0.5 : ℚ)
    · rw [if_pos hd, if_pos hfar]
      exact ⟨h1, h2⟩
    · rw [if_pos hd, if_neg hfar]
      have hc0 : (0 : ℚ) < (s.currentSize : ℚ) := by linarith
      have hx0 : (0 : ℚ) ≤ t / (s.currentSize : ℚ) := le_of_lt (div_pos ht hc0)
      have hx1 : t / (s.currentSize : ℚ) ≤ 1 := by
        rw [div_le_one hc0]
        linarith
      have hr : sqrtFn (t / (s.currentSize : ℚ)) ≤ 1 := hsq _ hx0 hx1
      constructor
      · show (1 / 2 : ℚ) ≤ max (s.quality * ((0.95 : ℚ) +
            (sqrtFn (t / (s.currentSize : ℚ)) - 1) * (0.1 : ℚ))) (0.5 : ℚ)
        calc (1 / 2 : ℚ) ≤ (0.5 : ℚ) := by norm_num
          _ ≤ _ := le_max_right _ _
      · show max (s.quality * ((0.95 : ℚ) +
            (sqrtFn (t / (s.currentSize : ℚ)) - 1) * (0.1 : ℚ))) (0.5 : ℚ) ≤ 1
        apply max_le
        · have hf : (0.95 : ℚ) + (sqrtFn (t / (s.currentSize : ℚ)) - 1) * (0.1 : ℚ) ≤
              0.95 := by linarith
          calc s.quality * ((0.95 : ℚ) + (sqrtFn (t / (s.currentSize : ℚ)) - 1) * (0.1 : ℚ))
              ≤ s.quality * (0.95 : ℚ) := mul_le_mul_of_nonneg_left hf (by linarith)
            _ ≤ 1 * (0.95 : ℚ) := mul_le_mul_of_nonneg_right h2 (by norm_num)
            _ ≤ 1 := by norm_num
        · norm_num
  · rw [if_neg hd]
    constructor
    · show (1 / 2 : ℚ) ≤ min (s.quality * (1.05 : ℚ)) 1
      apply le_min
      · have : (1 / 2 : ℚ) * (1.05 : ℚ) ≤ s.quality * (1.05 : ℚ) :=
          mul_le_mul_of_nonneg_right h1 (by norm_num)
        linarith
      · norm_num
    · show min (s.quality * (1.05 : ℚ)) 1 ≤ 1
      exact min_le_right _ _

theorem compressStep_quality (enc : ℤ → ℤ → ℚ → ℕ) (sqrtFn : ℚ → ℚ) (t : ℚ)
    (hsq : ∀ x : ℚ, 0 ≤ x → x ≤ 1 → sqrtFn x ≤ 1) (ht : 0 < t) :
    ∀ (fuel : ℕ) (s : ShrinkState), 1 / 2 ≤ s.quality → s.quality ≤ 1 →
      ∀ a ∈ (compressStep enc sqrtFn t fuel s).2, 1 / 2 ≤ a.quality ∧ a.quality ≤ 1 := by
  intro fuel
  induction fuel with
  | zero =>
    intro s h1 h2 a ha
    cases hb : s.bestMatch with
    | some b =>
      simp [compressStep, hb] at ha
    | none =>
      simp [compressStep, hb] at ha
      rw [ha]
      exact ⟨h1, h2⟩
  | succ n ih =>
    intro s h1 h2 a ha
    have hq := nextParams_quality_bounds sqrtFn t s hsq ht h1 h2
    by_cases hw : withinTolerance t (stepAttempt enc sqrtFn t s).size
    · simp [compressStep, hw] at ha
      rw [ha]
      exact hq
    · simp only [compressStep, if_neg hw] at ha
      rcases List.mem_cons.mp ha with rfl | ha
      · exact hq
      · exact ih (stepState enc sqrtFn t s) hq.1 hq.2 a ha

/-- C7: in the shrink regime every encode attempt of the default call is made
with quality in the closed interval [0.5, 1]: the loop starts at 0.9, the
close-to-target branch floors the update at 0.5, the far branch leaves
quality untouched, and the undershoot branch caps it at 1.0.  (The square
root hypothesis records that sqrt maps [0, 1] into [0, 1], which the
close-branch bound relies on.) -/
theorem shrink_quality_invariant (enc : ℤ → ℤ → ℚ → ℕ) (sqrtFn : ℚ → ℚ)
    (file : ImgFile) (targetSize : ℚ)
    (hsq : ∀ x : ℚ, 0 ≤ x → x ≤ 1 → sqrtFn x ≤ 1)
    (ht : 0 < targetSize) (hshrink : targetSize < (file.size : ℚ)) :
    ∀ a ∈ (resizeImageToSize enc sqrtFn file targetSize 20).2,
      1 / 2 ≤ a.quality ∧ a.quality ≤ 1 := by
  intro a ha
  rw [resizeImageToSize, if_neg (not_le.mpr hshrink)] at ha
  exact compressStep_quality enc sqrtFn targetSize hsq ht 20
    ⟨file.width, file.height, (0.9 : ℚ), file.size, none⟩ (by norm_num) (by norm_num) a ha

/-- Witness for C7 with sqrtFn = id (which maps [0,1] into [0,1]), a
100-byte file and a 50-byte target. -/
theorem shrink_quality_invariant_witness :
    (0 : ℚ) < 50 ∧ (50 : ℚ) < 100 ∧
    ∀ a ∈ (resizeImageToSize (fun _ _ _ => 50) (fun x => x) ⟨100, 10, 10⟩ 50 20).2,
      1 / 2 ≤ a.quality ∧ a.quality ≤ 1 :=
  ⟨by norm_num, by norm_num,
    shrink_quality_invariant (fun _ _ _ => 50) (fun x => x) ⟨100, 10, 10⟩ 50
      (fun x _ hx => hx) (by norm_num) (by norm_num)⟩
